import Mathlib

/-!
# Verification of the `amuletc` compiler pipeline specification

The repository's own source (`src/main.rs`) is a thin CLI driver around the
`amuletc` library's `Compiler` contract (`Compiler::new`, `Compiler::compile`,
`Compiler.contents`).  The pipeline itself (source loading, lexing, parsing,
semantic analysis, emission, diagnostic aggregation) is described by the
specification and modelled here, faithful to the spec's words; the driver in
`main.rs` is embedded directly.
-/

namespace Amuletc

/-- A source region: start byte offset (inclusive) and stop byte offset
(exclusive).  Modelled from the spec: `Span` identifies a region of the
SourceFile and is attached to every token, tree node and diagnostic. -/
structure Span where
  start : Nat
  stop : Nat
deriving DecidableEq, Repr

/-- Diagnostic severity.  Modelled from the spec data model: severity is
`error` or `warning`. -/
inductive Severity where
  | error
  | warning
deriving DecidableEq, Repr

/-- The diagnostic-level error taxonomy of the spec (§7). -/
inductive DiagKind where
  | lexError
  | syntaxError
  | nameError
  | typeError
deriving DecidableEq, Repr

/-- Modelled from the spec: a `Diagnostic` is {severity, message, primary
span} and diagnostics accumulate in an ordered sequence for the whole run. -/
structure Diagnostic where
  kind : DiagKind
  severity : Severity
  message : String
  span : Span
deriving DecidableEq, Repr

/-- The fatal error type returned by `Compiler::new` and `Compiler::compile`.
Modelled from the spec taxonomy (§7): `IOError`, `EncodingError`, and the
aggregated `CompileError` wrapping the full diagnostic list. -/
inductive Error where
  | ioError (message : String)
  | encodingError (message : String)
  | compileError (diags : List Diagnostic)
deriving DecidableEq, Repr

/-- Modelled from the spec: a `SourceFile` owns the full input text and the
input path, immutable after load. -/
structure SourceFile where
  path : String
  text : List Char
deriving DecidableEq, Repr

/-- A simple file-system model: files as path/byte-list pairs plus the set of
writable directories.  Modelled from the spec: the only file-system touch
points are the SourceLoader read and the Emitter write. -/
structure FileSystem where
  files : List (String × List Nat)
  writableDirs : List String
deriving DecidableEq, Repr

/-- Look a path up in the file-system model. -/
def FileSystem.lookup (fs : FileSystem) (p : String) : Option (List Nat) :=
  (fs.files.find? (fun e => e.1 = p)).map (·.2)

/-- Write a file into the file-system model (used by the Emitter on
success). -/
def FileSystem.write (fs : FileSystem) (p : String) (bytes : List Nat) :
    FileSystem :=
  { fs with files := (p, bytes) :: fs.files }

/-- Decode bytes under the declared source encoding (modelled as 7-bit
ASCII).  Modelled from the spec: SourceLoader fails with `EncodingError`
when the bytes are not valid under the language's declared source
encoding. -/
def decodeBytes (bytes : List Nat) : Option (List Char) :=
  if bytes.all (· < 128) then some (bytes.map (fun b => Char.ofNat b))
  else none

/-- Modelled from the spec (§4.1): `load(input_path) -> SourceFile`, failing
with `IOError` when the path does not exist, with `EncodingError` when the
bytes do not decode. -/
def load (fs : FileSystem) (inputPath : String) : Except Error SourceFile :=
  match fs.lookup inputPath with
  | none => .error (.ioError "input path does not exist")
  | some bytes =>
    match decodeBytes bytes with
    | none => .error (.encodingError "input is not valid source text")
    | some text => .ok { path := inputPath, text := text }

/-- Parent directory of a path: everything before the final `/` component
(empty when the path has no separator). -/
def parentDir (p : String) : String :=
  String.mk (((p.data.reverse).dropWhile (fun c => c ≠ '/')).drop 1).reverse

/-- Modelled from the spec (§4.1): `prepare_output(output_path)` validates
that the path's parent directory exists and is writable but performs no
write; fails with `IOError` otherwise. -/
def prepareOutput (fs : FileSystem) (outputPath : String) :
    Except Error Unit :=
  if parentDir outputPath ∈ fs.writableDirs then .ok ()
  else .error (.ioError "output directory is not writable")

/-! ## Lexer (spec §4.2)

Modelled from the spec: the Lexer classifies every maximal substring into
exactly one token kind or emits a `LexError` diagnostic for an unrecognized
character, then continues from the next code point; malformed string
literals produce a diagnostic but still yield a placeholder token;
end-of-input is an explicit terminal token.  The concrete token set is the
minimal instantiation the spec leaves to the implementer: identifiers,
numbers, double-quoted string literals, `=`, `;`, `+`. -/

/-- Token kinds of the minimal amulet instantiation. -/
inductive TokenKind where
  | ident
  | number
  | str
  | eq
  | semi
  | plus
  | eof
deriving DecidableEq, Repr

/-- A token: kind, payload text and source span. -/
structure Token where
  kind : TokenKind
  text : String
  span : Span
deriving DecidableEq, Repr

/-- Split a character list into the longest predicate-satisfying head and
the remainder. -/
def splitWhile (p : Char → Bool) : List Char → List Char × List Char
  | [] => ([], [])
  | c :: cs =>
    if p c then
      let r := splitWhile p cs
      (c :: r.1, r.2)
    else ([], c :: cs)

/-- Characters the lexer recognizes as starting an identifier. -/
def isIdentChar (c : Char) : Bool := c.isAlpha

/-- Characters the lexer recognizes as part of a number. -/
def isDigitChar (c : Char) : Bool := c.isDigit

/-- Whitespace skipped by the lexer. -/
def isSpaceChar (c : Char) : Bool := c = ' ' || c = '\n' || c = '\t'

/-- Any character other than the double quote (string-literal content). -/
def notQuote (c : Char) : Bool := c ≠ '"'

/-- The explicit end-of-input token at offset `n`. -/
def eofToken (n : Nat) : Token := { kind := .eof, text := "", span := ⟨n, n⟩ }

/-- Fuel-driven scanner loop; the fuel is an upper bound on the characters
still to be consumed, so with fuel `≥ l.length` the exhausted-fuel branch
is unreachable. -/
def scanF : Nat → List Char → Nat → List Token × List Diagnostic
  | _, [], pos => ([eofToken pos], [])
  | 0, _ :: _, pos => ([eofToken pos], [])
  | fuel + 1, c :: rest, pos =>
    if isSpaceChar c then scanF fuel rest (pos + 1)
    else if isIdentChar c then
      let s := splitWhile isIdentChar rest
      let word := String.mk (c :: s.1)
      let stop := pos + 1 + s.1.length
      let r := scanF fuel s.2 stop
      ({ kind := .ident, text := word, span := ⟨pos, stop⟩ } :: r.1, r.2)
    else if isDigitChar c then
      let s := splitWhile isDigitChar rest
      let word := String.mk (c :: s.1)
      let stop := pos + 1 + s.1.length
      let r := scanF fuel s.2 stop
      ({ kind := .number, text := word, span := ⟨pos, stop⟩ } :: r.1, r.2)
    else if c = '"' then
      if (splitWhile notQuote rest).2 = [] then
        -- no closing quote anywhere: unterminated string literal
        let s1 := (splitWhile notQuote rest).1
        let stop := pos + 1 + s1.length
        ([{ kind := .str, text := String.mk s1, span := ⟨pos, stop⟩ },
          eofToken stop],
         [{ kind := .lexError, severity := .error,
            message := "unterminated string literal",
            span := ⟨pos, stop⟩ }])
      else
        let s1 := (splitWhile notQuote rest).1
        let stop := pos + 1 + s1.length + 1
        let r := scanF fuel (splitWhile notQuote rest).2.tail stop
        ({ kind := .str, text := String.mk s1, span := ⟨pos, stop⟩ } :: r.1,
         r.2)
    else if c = '=' then
      let r := scanF fuel rest (pos + 1)
      ({ kind := .eq, text := "=", span := ⟨pos, pos + 1⟩ } :: r.1, r.2)
    else if c = ';' then
      let r := scanF fuel rest (pos + 1)
      ({ kind := .semi, text := ";", span := ⟨pos, pos + 1⟩ } :: r.1, r.2)
    else if c = '+' then
      let r := scanF fuel rest (pos + 1)
      ({ kind := .plus, text := "+", span := ⟨pos, pos + 1⟩ } :: r.1, r.2)
    else
      -- error recovery: record a LexError and skip one code point
      let r := scanF fuel rest (pos + 1)
      (r.1,
       { kind := .lexError, severity := .error,
         message := "unrecognized character",
         span := ⟨pos, pos + 1⟩ } :: r.2)

/-- Modelled from the spec (§4.2): scan the source from byte offset `pos`,
producing the token sequence (ending in the explicit `eof` terminal) and
the lexical diagnostics in source order.  An unrecognized character yields
a `LexError` spanning that one code point and scanning resumes at the next
code point; an unterminated string literal yields a `LexError` spanning
from the opening quote to end of input plus a placeholder token. -/
def scan (l : List Char) (pos : Nat) : List Token × List Diagnostic :=
  scanF l.length l pos

/-! ## Parser (spec §4.3)

Modelled from the spec: recursive descent with one token of lookahead; on an
unexpected token a `SyntaxError` diagnostic is anchored at the offending
span and panic-mode recovery discards tokens until the synchronization
token (the statement boundary `;`), then resumes with the next construct.
The minimal grammar instantiation: a program is a `;`-separated list of
statements, a statement is `ident = expr`, an expression is a `+`-separated
sequence of primaries (identifier, number or string literal). -/

/-- A primary expression with its source span. -/
inductive Primary where
  | ident (name : String) (span : Span)
  | num (text : String) (span : Span)
  | strLit (text : String) (span : Span)
deriving DecidableEq, Repr

/-- The span of a primary. -/
def Primary.span : Primary → Span
  | .ident _ sp => sp
  | .num _ sp => sp
  | .strLit _ sp => sp

/-- A statement node: `name = value`; the span of the left-hand identifier
is kept for diagnostics. -/
structure Stmt where
  name : String
  nameSpan : Span
  value : List Primary
deriving DecidableEq, Repr

/-- The spans carried by a statement node, in source order. -/
def stmtSpans (s : Stmt) : List Span :=
  s.nameSpan :: s.value.map Primary.span

/-- Build a `SyntaxError` diagnostic anchored at `sp`. -/
def synErr (msg : String) (sp : Span) : Diagnostic :=
  { kind := .syntaxError, severity := .error, message := msg, span := sp }

/-- Interpret a token as a primary, if its kind allows it. -/
def primOf (t : Token) : Option Primary :=
  match t.kind with
  | .ident => some (.ident t.text t.span)
  | .number => some (.num t.text t.span)
  | .str => some (.strLit t.text t.span)
  | _ => none

/-- Parse an expression from the tokens of one statement; `prev` is the span
of the token just before (used to anchor an `expected expression`
diagnostic). -/
def parseExpr : List Token → Span → Except Diagnostic (List Primary)
  | [], prev => .error (synErr "expected expression" prev)
  | [t], _ =>
    match primOf t with
    | none => .error (synErr "expected identifier, number or string" t.span)
    | some p => .ok [p]
  | t :: op :: rest, _ =>
    match primOf t with
    | none => .error (synErr "expected identifier, number or string" t.span)
    | some p =>
      if op.kind = .plus then (parseExpr rest op.span).map (fun ps => p :: ps)
      else .error (synErr "expected + or end of statement" op.span)

/-- Parse one `;`-delimited chunk as a statement.  An empty chunk is an
empty statement (no node, no diagnostic); a malformed chunk yields one
`SyntaxError` anchored at the offending token. -/
def parseStmt : List Token → Except Diagnostic (Option Stmt)
  | [] => .ok none
  | t :: rest =>
    if t.kind = .ident then
      match rest with
      | [] => .error (synErr "expected = after identifier" t.span)
      | te :: rest2 =>
        if te.kind = .eq then
          (parseExpr rest2 te.span).map
            (fun ps => some { name := t.text, nameSpan := t.span, value := ps })
        else .error (synErr "expected =" te.span)
    else .error (synErr "expected identifier at start of statement" t.span)

/-- Split the token stream at the synchronization token `;` (panic-mode
recovery boundaries): the resulting chunks are the statement candidates. -/
def splitStmts : List Token → List (List Token)
  | [] => [[]]
  | t :: ts =>
    if t.kind = .semi then [] :: splitStmts ts
    else
      match splitStmts ts with
      | [] => [[t]]
      | c :: cs => (t :: c) :: cs

/-- Parse every chunk, collecting statements and one diagnostic per
malformed chunk, in source order. -/
def parseChunks : List (List Token) → List Stmt × List Diagnostic
  | [] => ([], [])
  | c :: cs =>
    let r := parseChunks cs
    match parseStmt c with
    | .ok none => r
    | .ok (some s) => (s :: r.1, r.2)
    | .error d => (r.1, d :: r.2)

/-- Modelled from the spec (§4.3): `parse(tokens) -> root plus diagnostics`.
The explicit `eof` terminal is dropped, the stream is split at the
synchronization token and each statement is parsed; an error in one
statement never swallows the following statements. -/
def parseProgram (ts : List Token) : List Stmt × List Diagnostic :=
  parseChunks (splitStmts (ts.filter (fun t => t.kind ≠ .eof)))

/-! ## Semantic analyzer (spec §4.4) -/

/-- Build a `NameError` diagnostic for an unresolved identifier. -/
def nameErr (n : String) (sp : Span) : Diagnostic :=
  { kind := .nameError, severity := .error,
    message := "unresolved identifier " ++ n, span := sp }

/-- Build the warning-severity diagnostic for a redefinition. -/
def redefWarn (n : String) (sp : Span) : Diagnostic :=
  { kind := .nameError, severity := .warning,
    message := "redefinition of " ++ n, span := sp }

/-- Resolve every identifier use in an expression against the scope,
emitting a `NameError` per unresolved use, in source order; the walk never
aborts. -/
def analyzeExpr (scope : List String) : List Primary → List Diagnostic
  | [] => []
  | .ident n sp :: rest =>
    (if n ∈ scope then [] else [nameErr n sp]) ++ analyzeExpr scope rest
  | .num _ _ :: rest => analyzeExpr scope rest
  | .strLit _ _ :: rest => analyzeExpr scope rest

/-- Modelled from the spec (§4.4): walk the statements in order; each
statement's right-hand side is resolved against the bindings introduced by
the previous statements, then the statement's name is bound.  Rebinding an
existing name yields a warning-severity diagnostic; unresolved references
emit `NameError` without aborting the walk. -/
def analyzeStmts (scope : List String) : List Stmt → List Diagnostic
  | [] => []
  | s :: rest =>
    (if s.name ∈ scope then [redefWarn s.name s.nameSpan] else []) ++
      analyzeExpr scope s.value ++ analyzeStmts (s.name :: scope) rest

/-- Analyze a whole program starting from the empty top-level scope. -/
def analyze (ss : List Stmt) : List Diagnostic := analyzeStmts [] ss

/-! ## Emitter (spec §4.5) -/

/-- Render a primary back to text. -/
def renderPrimary : Primary → String
  | .ident n _ => n
  | .num t _ => t
  | .strLit t _ => "\"" ++ t ++ "\""

/-- Render an expression. -/
def renderExpr : List Primary → String
  | [] => ""
  | [p] => renderPrimary p
  | p :: rest => renderPrimary p ++ " + " ++ renderExpr rest

/-- Render one statement. -/
def renderStmt (s : Stmt) : String :=
  s.name ++ " = " ++ renderExpr s.value ++ ";\n"

/-- Modelled from the spec (§4.5): `emit(annotated tree) -> Artifact`, a
deterministic textual rendering of the validated tree, never empty (it
always begins with the artifact header line). -/
def emit (ss : List Stmt) : String :=
  "; amulet artifact\n" ++ String.join (ss.map renderStmt)

/-! ## Compiler driver (spec §4.6) -/

/-- The pipeline stages a run may execute. -/
inductive Stage where
  | lex
  | parse
  | analyze
  | emit
deriving DecidableEq, Repr

/-- `true` when the list holds at least one error-severity diagnostic. -/
def hasError (ds : List Diagnostic) : Bool :=
  ds.any (fun d => d.severity = .error)

deriving instance DecidableEq for Except

/-- The outcome of one pipeline run: accumulated diagnostics, the artifact
(if produced), the stages that were executed, and the overall result. -/
structure RunResult where
  diags : List Diagnostic
  contents : Option String
  stagesRun : List Stage
  result : Except Error Unit
deriving DecidableEq, Repr

/-- Modelled from the spec (§4.6): `compile()` drives
`Loaded → Lexed → Parsed → Analyzed → Emitted` sequentially, stopping at
the first stage whose diagnostics include an error; on failure the single
aggregated error carries the full diagnostic list; on success the Emitter's
artifact becomes `contents`. -/
def runPipeline (text : List Char) : RunResult :=
  if hasError (scan text 0).2 then
    { diags := (scan text 0).2, contents := none, stagesRun := [.lex],
      result := .error (.compileError (scan text 0).2) }
  else if hasError ((scan text 0).2 ++ (parseProgram (scan text 0).1).2) then
    { diags := (scan text 0).2 ++ (parseProgram (scan text 0).1).2,
      contents := none, stagesRun := [.lex, .parse],
      result := .error (.compileError
        ((scan text 0).2 ++ (parseProgram (scan text 0).1).2)) }
  else if hasError ((scan text 0).2 ++ (parseProgram (scan text 0).1).2 ++
      analyze (parseProgram (scan text 0).1).1) then
    { diags := (scan text 0).2 ++ (parseProgram (scan text 0).1).2 ++
        analyze (parseProgram (scan text 0).1).1,
      contents := none, stagesRun := [.lex, .parse, .analyze],
      result := .error (.compileError
        ((scan text 0).2 ++ (parseProgram (scan text 0).1).2 ++
          analyze (parseProgram (scan text 0).1).1)) }
  else
    { diags := (scan text 0).2 ++ (parseProgram (scan text 0).1).2 ++
        analyze (parseProgram (scan text 0).1).1,
      contents := some (emit (parseProgram (scan text 0).1).1),
      stagesRun := [.lex, .parse, .analyze, .emit], result := .ok () }

/-- The `Compiler` component: owns the two paths, the loaded source, the
diagnostic list and the final `contents`.  Modelled from the spec data
model (§3) and the contract visible in `src/main.rs`. -/
structure Compiler where
  inputPath : String
  outputPath : String
  source : SourceFile
  diags : List Diagnostic
  contents : Option String
deriving DecidableEq, Repr

/-- Modelled from the spec (§4.6): `new(input_path, output_path)` performs
only SourceLoader validation (`Created → Loaded`) and fails fast with
`IOError`/`EncodingError`; it does not run the rest of the pipeline and
touches no file.  The unchanged file system is returned alongside the
result to make the absence of side effects explicit. -/
def Compiler.new (fs : FileSystem) (inputPath outputPath : String) :
    Except Error Compiler × FileSystem :=
  match load fs inputPath with
  | .error e => (.error e, fs)
  | .ok src =>
    match prepareOutput fs outputPath with
    | .error e => (.error e, fs)
    | .ok _ =>
      (.ok { inputPath := inputPath, outputPath := outputPath, source := src,
             diags := [], contents := none }, fs)

/-- Encode an artifact for the on-disk write. -/
def encodeString (s : String) : List Nat := s.data.map (fun c => c.toNat)

/-- Modelled from the spec (§4.6, §4.5): `compile(&mut self)` re-runs the
full pipeline from the `Loaded` state, replaces the diagnostic list and
`contents`, and on success writes the artifact to the validated output
path. -/
def Compiler.compile (c : Compiler) (fs : FileSystem) :
    Compiler × FileSystem × Except Error Unit :=
  match (runPipeline c.source.text).contents with
  | some art =>
    ({ c with
        diags := (runPipeline c.source.text).diags,
        contents := some art },
     fs.write c.outputPath (encodeString art),
     (runPipeline c.source.text).result)
  | none =>
    ({ c with diags := (runPipeline c.source.text).diags, contents := none },
     fs, (runPipeline c.source.text).result)

/-! ## CLI driver (embedded from `src/main.rs`) -/

/-- The clap subcommands.  `compileCmd input output` is the
`Commands::Compile{input, output}` arm matched in `src/main.rs`;
`other` stands for any other subcommand (the driver's `_` arm treats every
one of them alike). -/
inductive Commands where
  | compileCmd (input : String) (output : String)
  | other
deriving DecidableEq, Repr

/-- The parsed command line: `cli.command` as matched in `src/main.rs`. -/
structure Cli where
  command : Option Commands
deriving DecidableEq, Repr

/-- Embedding of `main` from `src/main.rs`: on
`Some(Commands::Compile{input, output})` it constructs the `Compiler` with
`?` (propagating the error), runs `compile()` with `?` (propagating the
error), then prints `compiler.contents`; on any other command it does
nothing and returns `Ok(())`.  The returned triple is (process result,
lines printed to standard output, final file system). -/
def mainRun (cli : Cli) (fs : FileSystem) :
    Except Error Unit × List String × FileSystem :=
  match cli.command with
  | some (.compileCmd input output) =>
    match (Compiler.new fs input output).1 with
    | .error e => (.error e, [], (Compiler.new fs input output).2)
    | .ok compiler =>
      match (compiler.compile (Compiler.new fs input output).2).2.2 with
      | .error e =>
        (.error e, [],
         (compiler.compile (Compiler.new fs input output).2).2.1)
      | .ok _ =>
        (.ok (),
         [(compiler.compile (Compiler.new fs input output).2).1.contents.getD
           ""],
         (compiler.compile (Compiler.new fs input output).2).2.1)
  | _ => (.ok (), [], fs)

/-- Ordering of spans by start offset. -/
def spanLe (a b : Span) : Prop := a.start ≤ b.start

/-- Ordering of diagnostics by the start offset of their primary span. -/
def diagLe (a b : Diagnostic) : Prop := a.span.start ≤ b.span.start

/-- Ordering of tokens by the start offset of their span. -/
def tokLe (a b : Token) : Prop := a.span.start ≤ b.span.start

/-- All spans carried by a list of statement nodes, in source order. -/
def spansOfStmts : List Stmt → List Span
  | [] => []
  | s :: rest => stmtSpans s ++ spansOfStmts rest

/-! ## Lexer invariants -/

theorem splitWhile_snd_length_le (p : Char → Bool) :
    ∀ l : List Char, (splitWhile p l).2.length ≤ l.length := by
  intro l
  induction l with
  | nil => simp [splitWhile]
  | cons c cs ih =>
    by_cases h : p c
    · simp [splitWhile, h]
      exact Nat.le_succ_of_le ih
    · simp [splitWhile, h]

theorem splitWhile_append (p : Char → Bool) (l : List Char) :
    (splitWhile p l).1 ++ (splitWhile p l).2 = l := by
  induction l with
  | nil => simp [splitWhile]
  | cons c cs ih =>
    by_cases h : p c
    · simp [splitWhile, h, ih]
    · simp [splitWhile, h]


theorem splitWhile_length_sum (p : Char → Bool) (l : List Char) :
    (splitWhile p l).1.length + (splitWhile p l).2.length = l.length := by
  have h := congrArg List.length (splitWhile_append p l)
  simpa using h

theorem getLast?_cons_of_getLast? {α : Type} {l : List α} {x t : α}
    (h : l.getLast? = some x) : (t :: l).getLast? = some x := by
  cases l with
  | nil => simp at h
  | cons b bs => rw [List.getLast?_cons_cons]; exact h

/-- Master invariant of the scanner: every produced token and diagnostic
starts at or after the current offset, tokens and diagnostics are emitted
in nondecreasing source order, every lexical diagnostic is an
error-severity `LexError`, and the token stream always ends with the
explicit `eof` terminal sitting at end of input (scanning never aborts
early). -/
theorem scan_spec : ∀ n (l : List Char) (pos : Nat), l.length ≤ n →
    (∀ t ∈ (scanF n l pos).1, pos ≤ t.span.start) ∧
    (scanF n l pos).1.Pairwise tokLe ∧
    (∀ d ∈ (scanF n l pos).2,
      pos ≤ d.span.start ∧ d.severity = .error ∧ d.kind = .lexError) ∧
    (scanF n l pos).2.Pairwise diagLe ∧
    (scanF n l pos).1.getLast? = some (eofToken (pos + l.length)) := by
  intro n
  induction n with
  | zero =>
    intro l pos hl
    have hnil : l = [] := List.length_eq_zero.mp (Nat.le_zero.mp hl)
    subst hnil
    refine ⟨?_, ?_, ?_, ?_, ?_⟩ <;> simp [scanF, eofToken]
  | succ n ih =>
    intro l pos hl
    match l with
    | [] =>
      refine ⟨?_, ?_, ?_, ?_, ?_⟩ <;> simp [scanF, eofToken]
    | c :: rest =>
      have hrest : rest.length ≤ n := Nat.le_of_succ_le_succ hl
      rw [scanF]
      by_cases h1 : isSpaceChar c = true
      · rw [if_pos h1]
        obtain ⟨ht, hp, hd, hdp, hts⟩ := ih rest (pos + 1) hrest
        refine ⟨?_, hp, ?_, hdp, ?_⟩
        · exact fun t htm => Nat.le_trans (Nat.le_succ pos) (ht t htm)
        · exact fun d hdm =>
            ⟨Nat.le_trans (Nat.le_succ pos) ((hd d hdm).1), (hd d hdm).2⟩
        · have harith : pos + (c :: rest).length = pos + 1 + rest.length := by
            simp only [List.length_cons]; omega
          rw [harith]
          exact hts
      · rw [if_neg h1]
        by_cases h2 : isIdentChar c = true
        · rw [if_pos h2]
          have hlen : (splitWhile isIdentChar rest).2.length ≤ rest.length :=
            splitWhile_snd_length_le _ _
          have hsum := splitWhile_length_sum isIdentChar rest
          obtain ⟨ht, hp, hd, hdp, hts⟩ :=
            ih (splitWhile isIdentChar rest).2
              (pos + 1 + (splitWhile isIdentChar rest).1.length)
              (Nat.le_trans hlen hrest)
          refine ⟨?_, ?_, ?_, hdp, ?_⟩
          · intro t htm
            rcases List.mem_cons.mp htm with h | h
            · subst h; exact Nat.le_refl _
            · exact Nat.le_trans
                (show pos ≤ pos + 1 + (splitWhile isIdentChar rest).1.length
                  by omega) (ht t h)
          · refine List.pairwise_cons.mpr ⟨?_, hp⟩
            intro t htm
            exact Nat.le_trans
              (show pos ≤ pos + 1 + (splitWhile isIdentChar rest).1.length
                by omega) (ht t htm)
          · exact fun d hdm =>
              ⟨Nat.le_trans
                (show pos ≤ pos + 1 + (splitWhile isIdentChar rest).1.length
                  by omega) ((hd d hdm).1), (hd d hdm).2⟩
          · have harith : pos + (c :: rest).length =
                pos + 1 + (splitWhile isIdentChar rest).1.length +
                  (splitWhile isIdentChar rest).2.length := by
              simp only [List.length_cons]; omega
            rw [harith]
            exact getLast?_cons_of_getLast? hts
        · rw [if_neg h2]
          by_cases h3 : isDigitChar c = true
          · rw [if_pos h3]
            have hlen :
                (splitWhile isDigitChar rest).2.length ≤ rest.length :=
              splitWhile_snd_length_le _ _
            have hsum := splitWhile_length_sum isDigitChar rest
            obtain ⟨ht, hp, hd, hdp, hts⟩ :=
              ih (splitWhile isDigitChar rest).2
                (pos + 1 + (splitWhile isDigitChar rest).1.length)
                (Nat.le_trans hlen hrest)
            refine ⟨?_, ?_, ?_, hdp, ?_⟩
            · intro t htm
              rcases List.mem_cons.mp htm with h | h
              · subst h; exact Nat.le_refl _
              · exact Nat.le_trans
                  (show pos ≤ pos + 1 + (splitWhile isDigitChar rest).1.length
                    by omega) (ht t h)
            · refine List.pairwise_cons.mpr ⟨?_, hp⟩
              intro t htm
              exact Nat.le_trans
                (show pos ≤ pos + 1 + (splitWhile isDigitChar rest).1.length
                  by omega) (ht t htm)
            · exact fun d hdm =>
                ⟨Nat.le_trans
                  (show pos ≤ pos + 1 + (splitWhile isDigitChar rest).1.length
                    by omega) ((hd d hdm).1), (hd d hdm).2⟩
            · have harith : pos + (c :: rest).length =
                  pos + 1 + (splitWhile isDigitChar rest).1.length +
                    (splitWhile isDigitChar rest).2.length := by
                simp only [List.length_cons]; omega
              rw [harith]
              exact getLast?_cons_of_getLast? hts
          · rw [if_neg h3]
            by_cases h4 : c = '"'
            · rw [if_pos h4]
              have hsum := splitWhile_length_sum notQuote rest
              by_cases hq : (splitWhile notQuote rest).2 = []
              · rw [if_pos hq]
                have hlenq : (splitWhile notQuote rest).1.length =
                    rest.length := by
                  rw [hq] at hsum; simpa using hsum
                refine ⟨?_, ?_, ?_, ?_, ?_⟩
                · intro t htm
                  rcases List.mem_cons.mp htm with h | h
                  · subst h; exact Nat.le_refl _
                  · rw [List.mem_singleton] at h
                    subst h
                    show pos ≤ pos + 1 + (splitWhile notQuote rest).1.length
                    omega
                · refine List.pairwise_cons.mpr ⟨?_, ?_⟩
                  · intro t htm
                    rw [List.mem_singleton] at htm
                    subst htm
                    show pos ≤ pos + 1 + (splitWhile notQuote rest).1.length
                    omega
                  · simp
                · intro d hdm
                  rw [List.mem_singleton] at hdm
                  subst hdm
                  exact ⟨Nat.le_refl _, rfl, rfl⟩
                · simp
                · have harith : pos + (c :: rest).length =
                      pos + 1 + (splitWhile notQuote rest).1.length := by
                    simp only [List.length_cons]; omega
                  rw [harith]
                  rfl
              · rw [if_neg hq]
                have hnn : (splitWhile notQuote rest).2.length ≠ 0 := by
                  intro h0
                  exact hq (List.length_eq_zero.mp h0)
                have htl := List.length_tail (splitWhile notQuote rest).2
                have hlen : (splitWhile notQuote rest).2.length ≤
                    rest.length := splitWhile_snd_length_le _ _
                obtain ⟨ht, hp, hd, hdp, hts⟩ :=
                  ih (splitWhile notQuote rest).2.tail
                    (pos + 1 + (splitWhile notQuote rest).1.length + 1)
                    (by omega)
                refine ⟨?_, ?_, ?_, hdp, ?_⟩
                · intro t htm
                  rcases List.mem_cons.mp htm with h | h
                  · subst h; exact Nat.le_refl _
                  · exact Nat.le_trans
                      (show pos ≤
                          pos + 1 + (splitWhile notQuote rest).1.length + 1
                        by omega) (ht t h)
                · refine List.pairwise_cons.mpr ⟨?_, hp⟩
                  intro t htm
                  exact Nat.le_trans
                    (show pos ≤
                        pos + 1 + (splitWhile notQuote rest).1.length + 1
                      by omega) (ht t htm)
                · exact fun d hdm =>
                    ⟨Nat.le_trans
                      (show pos ≤
                          pos + 1 + (splitWhile notQuote rest).1.length + 1
                        by omega) ((hd d hdm).1), (hd d hdm).2⟩
                · have harith : pos + (c :: rest).length =
                      pos + 1 + (splitWhile notQuote rest).1.length + 1 +
                        (splitWhile notQuote rest).2.tail.length := by
                    simp only [List.length_cons]; omega
                  rw [harith]
                  exact getLast?_cons_of_getLast? hts
            · rw [if_neg h4]
              by_cases h5 : c = '='
              · rw [if_pos h5]
                obtain ⟨ht, hp, hd, hdp, hts⟩ := ih rest (pos + 1) hrest
                refine ⟨?_, ?_, ?_, hdp, ?_⟩
                · intro t htm
                  rcases List.mem_cons.mp htm with h | h
                  · subst h; exact Nat.le_refl _
                  · exact Nat.le_trans (Nat.le_succ pos) (ht t h)
                · refine List.pairwise_cons.mpr ⟨?_, hp⟩
                  intro t htm
                  exact Nat.le_trans (Nat.le_succ pos) (ht t htm)
                · exact fun d hdm =>
                    ⟨Nat.le_trans (Nat.le_succ pos) ((hd d hdm).1),
                     (hd d hdm).2⟩
                · have harith : pos + (c :: rest).length =
                      pos + 1 + rest.length := by
                    simp only [List.length_cons]; omega
                  rw [harith]
                  exact getLast?_cons_of_getLast? hts
              · rw [if_neg h5]
                by_cases h6 : c = ';'
                · rw [if_pos h6]
                  obtain ⟨ht, hp, hd, hdp, hts⟩ := ih rest (pos + 1) hrest
                  refine ⟨?_, ?_, ?_, hdp, ?_⟩
                  · intro t htm
                    rcases List.mem_cons.mp htm with h | h
                    · subst h; exact Nat.le_refl _
                    · exact Nat.le_trans (Nat.le_succ pos) (ht t h)
                  · refine List.pairwise_cons.mpr ⟨?_, hp⟩
                    intro t htm
                    exact Nat.le_trans (Nat.le_succ pos) (ht t htm)
                  · exact fun d hdm =>
                      ⟨Nat.le_trans (Nat.le_succ pos) ((hd d hdm).1),
                       (hd d hdm).2⟩
                  · have harith : pos + (c :: rest).length =
                        pos + 1 + rest.length := by
                      simp only [List.length_cons]; omega
                    rw [harith]
                    exact getLast?_cons_of_getLast? hts
                · rw [if_neg h6]
                  by_cases h7 : c = '+'
                  · rw [if_pos h7]
                    obtain ⟨ht, hp, hd, hdp, hts⟩ := ih rest (pos + 1) hrest
                    refine ⟨?_, ?_, ?_, hdp, ?_⟩
                    · intro t htm
                      rcases List.mem_cons.mp htm with h | h
                      · subst h; exact Nat.le_refl _
                      · exact Nat.le_trans (Nat.le_succ pos) (ht t h)
                    · refine List.pairwise_cons.mpr ⟨?_, hp⟩
                      intro t htm
                      exact Nat.le_trans (Nat.le_succ pos) (ht t htm)
                    · exact fun d hdm =>
                        ⟨Nat.le_trans (Nat.le_succ pos) ((hd d hdm).1),
                         (hd d hdm).2⟩
                    · have harith : pos + (c :: rest).length =
                          pos + 1 + rest.length := by
                        simp only [List.length_cons]; omega
                      rw [harith]
                      exact getLast?_cons_of_getLast? hts
                  · rw [if_neg h7]
                    obtain ⟨ht, hp, hd, hdp, hts⟩ := ih rest (pos + 1) hrest
                    refine ⟨?_, hp, ?_, ?_, ?_⟩
                    · exact fun t htm =>
                        Nat.le_trans (Nat.le_succ pos) (ht t htm)
                    · intro d hdm
                      rcases List.mem_cons.mp hdm with h | h
                      · subst h; exact ⟨Nat.le_refl _, rfl, rfl⟩
                      · exact
                          ⟨Nat.le_trans (Nat.le_succ pos) ((hd d h).1),
                           (hd d h).2⟩
                    · refine List.pairwise_cons.mpr ⟨?_, hdp⟩
                      intro d hdm
                      exact Nat.le_trans (Nat.le_succ pos) ((hd d hdm).1)
                    · have harith : pos + (c :: rest).length =
                          pos + 1 + rest.length := by
                        simp only [List.length_cons]; omega
                      rw [harith]
                      exact hts

/-- Diagnostics of the scanner are all error-severity `LexError`s. -/
theorem scan_diags_all_error (l : List Char) (pos : Nat) :
    ∀ d ∈ (scan l pos).2, d.severity = .error ∧ d.kind = .lexError :=
  fun d hd =>
    ((scan_spec l.length l pos (Nat.le_refl _)).2.2.1 d hd).2

/-- The scanner's diagnostics come in nondecreasing source order. -/
theorem scan_diags_sorted (l : List Char) (pos : Nat) :
    (scan l pos).2.Pairwise diagLe :=
  (scan_spec l.length l pos (Nat.le_refl _)).2.2.2.1

/-- The scanner's tokens come in nondecreasing source order. -/
theorem scan_tokens_sorted (l : List Char) (pos : Nat) :
    (scan l pos).1.Pairwise tokLe :=
  (scan_spec l.length l pos (Nat.le_refl _)).2.1

/-- The scanner always reaches end of input: the last token is the explicit
`eof` terminal at the end of the buffer. -/
theorem scan_getLast (l : List Char) (pos : Nat) :
    (scan l pos).1.getLast? = some (eofToken (pos + l.length)) :=
  (scan_spec l.length l pos (Nat.le_refl _)).2.2.2.2

/-- A diagnostic list whose members are all errors and which trips no
`hasError` check is empty. -/
theorem eq_nil_of_all_error {ds : List Diagnostic}
    (h : ∀ d ∈ ds, d.severity = .error) (hne : hasError ds = false) :
    ds = [] := by
  cases ds with
  | nil => rfl
  | cons d rest =>
    exfalso
    have h1 := h d (List.mem_cons_self _ _)
    rw [hasError, List.any_eq_false] at hne
    have h2 := hne d (List.mem_cons_self _ _)
    simp [h1] at h2

/-- `primOf` keeps the token's span. -/
theorem primOf_span (t : Token) (p : Primary) (h : primOf t = some p) :
    p.span = t.span := by
  unfold primOf at h
  cases hk : t.kind <;> rw [hk] at h <;> simp at h <;> (rw [← h]; rfl)

/-- Every parse-expression failure is an error-severity `SyntaxError`
anchored either at the previous token's span or at a token of the
expression. -/
theorem parseExpr_error_spec : ∀ n (ts : List Token) (prev : Span)
    (d : Diagnostic), ts.length ≤ n → parseExpr ts prev = .error d →
    d.kind = .syntaxError ∧ d.severity = .error ∧
      (d.span = prev ∨ ∃ t ∈ ts, d.span = t.span) := by
  intro n
  induction n with
  | zero =>
    intro ts prev d hl h
    have hnil : ts = [] := List.length_eq_zero.mp (Nat.le_zero.mp hl)
    subst hnil
    rw [parseExpr] at h
    cases h
    exact ⟨rfl, rfl, Or.inl rfl⟩
  | succ n ih =>
    intro ts prev d hl h
    match ts with
    | [] =>
      rw [parseExpr] at h
      cases h
      exact ⟨rfl, rfl, Or.inl rfl⟩
    | [t] =>
      rw [parseExpr] at h
      cases hp : primOf t <;> rw [hp] at h <;> dsimp only at h <;> cases h
      exact ⟨rfl, rfl, Or.inr ⟨t, List.mem_cons_self _ _, rfl⟩⟩
    | t :: op :: rest =>
      rw [parseExpr] at h
      cases hp : primOf t <;> rw [hp] at h <;> dsimp only at h
      · cases h
        exact ⟨rfl, rfl, Or.inr ⟨t, List.mem_cons_self _ _, rfl⟩⟩
      · by_cases hop : op.kind = .plus
        · rw [if_pos hop] at h
          cases he : parseExpr rest op.span <;> rw [he] at h <;>
            simp only [Except.map] at h <;> cases h
          have hlen : rest.length ≤ n := by
            simp only [List.length_cons] at hl
            omega
          obtain ⟨hk, hs, hsp⟩ := ih rest op.span _ hlen he
          refine ⟨hk, hs, ?_⟩
          rcases hsp with hsp | ⟨t', ht', hsp⟩
          · exact Or.inr ⟨op, List.mem_cons_of_mem _ (List.mem_cons_self _ _),
              hsp⟩
          · exact Or.inr ⟨t', List.mem_cons_of_mem _
              (List.mem_cons_of_mem _ ht'), hsp⟩
        · rw [if_neg hop] at h
          cases h
          exact ⟨rfl, rfl, Or.inr ⟨op,
            List.mem_cons_of_mem _ (List.mem_cons_self _ _), rfl⟩⟩

/-- On success, the primaries of a parsed expression carry the spans of its
tokens, in order (a sublist of the token spans). -/
theorem parseExpr_ok_spec : ∀ n (ts : List Token) (prev : Span)
    (ps : List Primary), ts.length ≤ n → parseExpr ts prev = .ok ps →
    (ps.map Primary.span).Sublist (ts.map Token.span) := by
  intro n
  induction n with
  | zero =>
    intro ts prev ps hl h
    have hnil : ts = [] := List.length_eq_zero.mp (Nat.le_zero.mp hl)
    subst hnil
    rw [parseExpr] at h
    cases h
  | succ n ih =>
    intro ts prev ps hl h
    match ts with
    | [] =>
      rw [parseExpr] at h
      cases h
    | [t] =>
      rw [parseExpr] at h
      cases hp : primOf t <;> rw [hp] at h <;> dsimp only at h <;> cases h
      rename_i p
      simp [primOf_span t p hp]
    | t :: op :: rest =>
      rw [parseExpr] at h
      cases hp : primOf t <;> rw [hp] at h <;> dsimp only at h
      · cases h
      · by_cases hop : op.kind = .plus
        · rw [if_pos hop] at h
          cases he : parseExpr rest op.span <;> rw [he] at h <;>
            simp only [Except.map] at h <;> cases h
          rename_i p ps'
          have hlen : rest.length ≤ n := by
            simp only [List.length_cons] at hl
            omega
          have hsub := ih rest op.span ps' hlen he
          simp only [List.map_cons]
          rw [primOf_span t p hp]
          exact List.Sublist.cons₂ _ (List.Sublist.cons _ hsub)
        · rw [if_neg hop] at h
          cases h

/-- Every statement-parse failure is an error-severity `SyntaxError`
anchored at a token of that statement's own chunk. -/
theorem parseStmt_error_spec (c : List Token) (d : Diagnostic)
    (h : parseStmt c = .error d) :
    d.kind = .syntaxError ∧ d.severity = .error ∧
      ∃ t ∈ c, d.span = t.span := by
  match c with
  | [] => rw [parseStmt] at h; cases h
  | [t] =>
    rw [parseStmt] at h
    by_cases ht : t.kind = .ident
    · rw [if_pos ht] at h
      cases h
      exact ⟨rfl, rfl, t, List.mem_cons_self _ _, rfl⟩
    · rw [if_neg ht] at h
      cases h
      exact ⟨rfl, rfl, t, List.mem_cons_self _ _, rfl⟩
  | t :: te :: rest2 =>
    rw [parseStmt] at h
    by_cases ht : t.kind = .ident
    · rw [if_pos ht] at h
      by_cases hte : te.kind = .eq
      · rw [if_pos hte] at h
        cases he : parseExpr rest2 te.span <;> rw [he] at h <;>
          simp only [Except.map] at h <;> cases h
        obtain ⟨hk, hs, hsp⟩ :=
          parseExpr_error_spec rest2.length rest2 te.span _ (Nat.le_refl _) he
        refine ⟨hk, hs, ?_⟩
        rcases hsp with hsp | ⟨t', ht', hsp⟩
        · exact ⟨te, List.mem_cons_of_mem _ (List.mem_cons_self _ _), hsp⟩
        · exact ⟨t', List.mem_cons_of_mem _ (List.mem_cons_of_mem _ ht'),
            hsp⟩
      · rw [if_neg hte] at h
        cases h
        exact ⟨rfl, rfl, te,
          List.mem_cons_of_mem _ (List.mem_cons_self _ _), rfl⟩
    · rw [if_neg ht] at h
      cases h
      exact ⟨rfl, rfl, t, List.mem_cons_self _ _, rfl⟩

/-- On success, a parsed statement's spans are the spans of its chunk's
tokens, in order. -/
theorem parseStmt_ok_spec (c : List Token) (s : Stmt)
    (h : parseStmt c = .ok (some s)) :
    (stmtSpans s).Sublist (c.map Token.span) := by
  match c with
  | [] =>
    rw [parseStmt] at h
    simp at h
  | [t] =>
    rw [parseStmt] at h
    by_cases ht : t.kind = .ident
    · rw [if_pos ht] at h; cases h
    · rw [if_neg ht] at h; cases h
  | t :: te :: rest2 =>
    rw [parseStmt] at h
    by_cases ht : t.kind = .ident
    · rw [if_pos ht] at h
      by_cases hte : te.kind = .eq
      · rw [if_pos hte] at h
        cases he : parseExpr rest2 te.span <;> rw [he] at h <;>
          simp only [Except.map] at h
        · cases h
        · simp only [Except.ok.injEq, Option.some.injEq] at h
          subst h
          have hsub :=
            parseExpr_ok_spec rest2.length rest2 te.span _ (Nat.le_refl _) he
          simp only [stmtSpans, List.map_cons]
          exact List.Sublist.cons₂ _ (List.Sublist.cons _ hsub)
      · rw [if_neg hte] at h
        cases h
    · rw [if_neg ht] at h
      cases h

/-- `splitStmts` always yields at least one chunk. -/
theorem splitStmts_ne_nil (ts : List Token) : splitStmts ts ≠ [] := by
  induction ts with
  | nil => simp [splitStmts]
  | cons t ts ih =>
    rw [splitStmts]
    by_cases h : t.kind = .semi
    · rw [if_pos h]
      simp
    · rw [if_neg h]
      obtain ⟨c, cs, hcs⟩ := List.exists_cons_of_ne_nil ih
      rw [hcs]
      simp

/-- Flattening the chunks recovers a sublist of the token stream (only the
synchronization tokens are dropped). -/
theorem splitStmts_flatten_sublist (ts : List Token) :
    (splitStmts ts).flatten.Sublist ts := by
  induction ts with
  | nil => simp [splitStmts]
  | cons t ts ih =>
    rw [splitStmts]
    by_cases h : t.kind = .semi
    · rw [if_pos h]
      rw [List.flatten_cons, List.nil_append]
      exact List.Sublist.cons _ ih
    · rw [if_neg h]
      obtain ⟨c, cs, hcs⟩ := List.exists_cons_of_ne_nil (splitStmts_ne_nil ts)
      rw [hcs]
      have hred : (((t :: c) :: cs) : List (List Token)).flatten =
          t :: (c :: cs).flatten := by
        simp
      dsimp only
      rw [hred, ← hcs]
      exact List.Sublist.cons₂ _ ih

/-- Splitting at an explicit synchronization token: the tokens before it
form the first chunk. -/
theorem splitStmts_append (A B : List Token) (t0 : Token)
    (ht0 : t0.kind = .semi) (hA : ∀ t ∈ A, t.kind ≠ .semi) :
    splitStmts (A ++ t0 :: B) = A :: splitStmts B := by
  induction A with
  | nil =>
    rw [List.nil_append, splitStmts, if_pos ht0]
  | cons a A ih =>
    have ha : a.kind ≠ .semi := hA a (List.mem_cons_self _ _)
    have ih2 := ih (fun t ht => hA t (List.mem_cons_of_mem _ ht))
    rw [List.cons_append, splitStmts, if_neg ha, ih2]

/-- A chunk without synchronization tokens splits into itself. -/
theorem splitStmts_no_semi (B : List Token)
    (hB : ∀ t ∈ B, t.kind ≠ .semi) : splitStmts B = [B] := by
  induction B with
  | nil => rfl
  | cons b B ih =>
    have hb : b.kind ≠ .semi := hB b (List.mem_cons_self _ _)
    rw [splitStmts, if_neg hb, ih (fun t ht => hB t (List.mem_cons_of_mem _
      ht))]

/-- Every parser diagnostic is an error-severity `SyntaxError`. -/
theorem parseChunks_diags_all_error (cs : List (List Token)) :
    ∀ d ∈ (parseChunks cs).2,
      d.severity = .error ∧ d.kind = .syntaxError := by
  induction cs with
  | nil => simp [parseChunks]
  | cons c cs ih =>
    intro d hd
    rw [parseChunks] at hd
    cases he : parseStmt c
    case ok =>
      rename_i os
      rw [he] at hd
      cases os <;> dsimp only at hd <;> exact ih d hd
    case error =>
      rw [he] at hd
      dsimp only at hd
      rcases List.mem_cons.mp hd with h | h
      · subst h
        obtain ⟨hk, hs, _⟩ := parseStmt_error_spec c _ he
        exact ⟨hs, hk⟩
      · exact ih d h

/-- The spans of the parser's diagnostics form a sublist of the token spans
of the flattened chunks (in order). -/
theorem parseChunks_diag_spans (cs : List (List Token)) :
    ((parseChunks cs).2.map (fun d => d.span)).Sublist
      (cs.flatten.map Token.span) := by
  induction cs with
  | nil => simp [parseChunks]
  | cons c cs ih =>
    rw [parseChunks, List.flatten_cons, List.map_append]
    cases he : parseStmt c
    case ok =>
      rename_i os
      cases os <;> dsimp only <;>
        exact List.sublist_append_of_sublist_right ih
    case error =>
      dsimp only
      obtain ⟨_, _, t, htc, hsp⟩ := parseStmt_error_spec c _ he
      rw [List.map_cons, ← List.singleton_append]
      refine List.Sublist.append ?_ ih
      rw [List.singleton_sublist, hsp]
      exact List.mem_map_of_mem _ htc

/-- The spans of the parsed statements form a sublist of the token spans of
the flattened chunks (in order). -/
theorem parseChunks_stmt_spans (cs : List (List Token)) :
    (spansOfStmts (parseChunks cs).1).Sublist
      (cs.flatten.map Token.span) := by
  induction cs with
  | nil => simp [parseChunks, spansOfStmts]
  | cons c cs ih =>
    rw [parseChunks, List.flatten_cons, List.map_append]
    cases he : parseStmt c
    case ok =>
      rename_i os
      cases os with
      | none =>
        dsimp only
        exact List.sublist_append_of_sublist_right ih
      | some s =>
        dsimp only
        rw [spansOfStmts]
        exact List.Sublist.append (parseStmt_ok_spec c s he) ih
    case error =>
      dsimp only
      exact List.sublist_append_of_sublist_right ih

/-- The analyzer's expression diagnostics carry primary spans, in order. -/
theorem analyzeExpr_spans (scope : List String) (ps : List Primary) :
    ((analyzeExpr scope ps).map (fun d => d.span)).Sublist
      (ps.map Primary.span) := by
  induction ps with
  | nil => simp [analyzeExpr]
  | cons p rest ih =>
    cases p with
    | ident n sp =>
      rw [analyzeExpr]
      by_cases h : n ∈ scope
      · rw [if_pos h, List.nil_append, List.map_cons]
        exact List.Sublist.cons _ ih
      · rw [if_neg h, List.singleton_append, List.map_cons, List.map_cons]
        exact List.Sublist.cons₂ _ ih
    | num tx sp =>
      rw [analyzeExpr, List.map_cons]
      exact List.Sublist.cons _ ih
    | strLit tx sp =>
      rw [analyzeExpr, List.map_cons]
      exact List.Sublist.cons _ ih

/-- The analyzer's diagnostics carry the statements' spans, in order. -/
theorem analyzeStmts_spans (ss : List Stmt) : ∀ scope,
    ((analyzeStmts scope ss).map (fun d => d.span)).Sublist
      (spansOfStmts ss) := by
  induction ss with
  | nil => intro scope; simp [analyzeStmts, spansOfStmts]
  | cons s rest ih =>
    intro scope
    rw [analyzeStmts, spansOfStmts, List.map_append, List.map_append]
    have h1 : (((if s.name ∈ scope then [redefWarn s.name s.nameSpan]
        else []) : List Diagnostic).map (fun d => d.span)).Sublist
        [s.nameSpan] := by
      by_cases h : s.name ∈ scope
      · rw [if_pos h]
        simp [redefWarn]
      · rw [if_neg h]
        simp
    have h2 := analyzeExpr_spans scope s.value
    have hst : stmtSpans s = [s.nameSpan] ++ s.value.map Primary.span := by
      rw [stmtSpans, List.singleton_append]
    rw [hst, List.append_assoc, List.append_assoc]
    exact List.Sublist.append h1 (List.Sublist.append h2 (ih _))

/-- Every diagnostic of `parseProgram` is an error-severity `SyntaxError`. -/
theorem parseProgram_diags_all_error (ts : List Token) :
    ∀ d ∈ (parseProgram ts).2,
      d.severity = .error ∧ d.kind = .syntaxError := by
  intro d hd
  rw [parseProgram] at hd
  exact parseChunks_diags_all_error _ d hd

/-- Over a sorted token stream the parser's diagnostics are sorted. -/
theorem parseProgram_diags_sorted (ts : List Token)
    (h : ts.Pairwise tokLe) : (parseProgram ts).2.Pairwise diagLe := by
  have hspan : (ts.map Token.span).Pairwise spanLe := List.pairwise_map.mpr h
  have h1 := parseChunks_diag_spans
    (splitStmts (ts.filter (fun t => t.kind ≠ .eof)))
  have h2 : ((splitStmts (ts.filter (fun t =>
      t.kind ≠ .eof))).flatten.map Token.span).Sublist
      (ts.map Token.span) :=
    List.Sublist.map _
      ((splitStmts_flatten_sublist _).trans (List.filter_sublist _))
  have h3 := h1.trans h2
  have h4 := List.Pairwise.sublist h3 hspan
  rw [parseProgram]
  exact (@List.pairwise_map Diagnostic Span (fun d => d.span) spanLe _).mp h4

/-- Over a sorted token stream the spans of the parsed statements are
sorted. -/
theorem parseProgram_stmt_spans_sorted (ts : List Token)
    (h : ts.Pairwise tokLe) :
    (spansOfStmts (parseProgram ts).1).Pairwise spanLe := by
  have hspan : (ts.map Token.span).Pairwise spanLe := List.pairwise_map.mpr h
  have h1 := parseChunks_stmt_spans
    (splitStmts (ts.filter (fun t => t.kind ≠ .eof)))
  have h2 : ((splitStmts (ts.filter (fun t =>
      t.kind ≠ .eof))).flatten.map Token.span).Sublist
      (ts.map Token.span) :=
    List.Sublist.map _
      ((splitStmts_flatten_sublist _).trans (List.filter_sublist _))
  rw [parseProgram]
  exact List.Pairwise.sublist (h1.trans h2) hspan

/-- The analyzer's diagnostics over statements with sorted spans are
sorted. -/
theorem analyze_diags_sorted (ss : List Stmt)
    (h : (spansOfStmts ss).Pairwise spanLe) :
    (analyze ss).Pairwise diagLe := by
  have h1 := analyzeStmts_spans ss []
  have h2 := List.Pairwise.sublist h1 h
  rw [analyze]
  exact (@List.pairwise_map Diagnostic Span (fun d => d.span) spanLe _).mp h2

/-! ## Pipeline invariants -/

/-- Dichotomy of a pipeline run: either it succeeds with zero
error-severity diagnostics, `contents` set to the Emitter's artifact and
all four stages run, or it fails with the aggregated error carrying the
full diagnostic list, `contents` unset and the Emitter never invoked. -/
theorem runPipeline_cases (t : List Char) :
    ((runPipeline t).result = .ok () ∧
      hasError (runPipeline t).diags = false ∧
      (runPipeline t).contents = some (emit (parseProgram (scan t 0).1).1) ∧
      (runPipeline t).stagesRun = [.lex, .parse, .analyze, .emit]) ∨
    ((runPipeline t).result = .error (.compileError (runPipeline t).diags) ∧
      hasError (runPipeline t).diags = true ∧
      (runPipeline t).contents = none ∧
      Stage.emit ∉ (runPipeline t).stagesRun) := by
  rw [runPipeline]
  by_cases h1 : hasError (scan t 0).2 = true
  · rw [if_pos h1]
    right
    exact ⟨rfl, h1, rfl, by simp⟩
  · rw [if_neg h1]
    by_cases h2 : hasError ((scan t 0).2 ++ (parseProgram (scan t 0).1).2) =
        true
    · rw [if_pos h2]
      right
      exact ⟨rfl, h2, rfl, by simp⟩
    · rw [if_neg h2]
      by_cases h3 : hasError ((scan t 0).2 ++ (parseProgram (scan t 0).1).2
          ++ analyze (parseProgram (scan t 0).1).1) = true
      · rw [if_pos h3]
        right
        exact ⟨rfl, h3, rfl, by simp⟩
      · rw [if_neg h3]
        left
        exact ⟨rfl, Bool.not_eq_true _ ▸ h3, rfl, rfl⟩

/-- The diagnostics of every pipeline run are ordered by source position. -/
theorem runPipeline_diags_sorted (t : List Char) :
    (runPipeline t).diags.Pairwise diagLe := by
  rw [runPipeline]
  by_cases h1 : hasError (scan t 0).2 = true
  · rw [if_pos h1]
    exact scan_diags_sorted t 0
  · rw [if_neg h1]
    have hlex : (scan t 0).2 = [] :=
      eq_nil_of_all_error (fun d hd => (scan_diags_all_error t 0 d hd).1)
        (Bool.not_eq_true _ ▸ h1)
    by_cases h2 : hasError ((scan t 0).2 ++ (parseProgram (scan t 0).1).2) =
        true
    · rw [if_pos h2]
      show ((scan t 0).2 ++ (parseProgram (scan t 0).1).2).Pairwise diagLe
      rw [hlex, List.nil_append]
      exact parseProgram_diags_sorted _ (scan_tokens_sorted t 0)
    · rw [if_neg h2]
      have hpar : (parseProgram (scan t 0).1).2 = [] := by
        refine eq_nil_of_all_error
          (fun d hd => (parseProgram_diags_all_error _ d hd).1) ?_
        have h2f : hasError ((scan t 0).2 ++ (parseProgram (scan t 0).1).2) =
            false := Bool.not_eq_true _ ▸ h2
        rw [hlex, List.nil_append] at h2f
        exact h2f
      have hsem : (analyze (parseProgram (scan t 0).1).1).Pairwise diagLe :=
        analyze_diags_sorted _
          (parseProgram_stmt_spans_sorted _ (scan_tokens_sorted t 0))
      by_cases h3 : hasError ((scan t 0).2 ++ (parseProgram (scan t 0).1).2
          ++ analyze (parseProgram (scan t 0).1).1) = true
      · rw [if_pos h3]
        show ((scan t 0).2 ++ (parseProgram (scan t 0).1).2 ++
          analyze (parseProgram (scan t 0).1).1).Pairwise diagLe
        rw [hlex, hpar, List.nil_append, List.nil_append]
        exact hsem
      · rw [if_neg h3]
        show ((scan t 0).2 ++ (parseProgram (scan t 0).1).2 ++
          analyze (parseProgram (scan t 0).1).1).Pairwise diagLe
        rw [hlex, hpar, List.nil_append, List.nil_append]
        exact hsem

/-- A failing run's aggregated error carries exactly the accumulated
diagnostic list. -/
theorem runPipeline_fail_diags (t : List Char) (e : Error)
    (h : (runPipeline t).result = .error e) :
    e = .compileError (runPipeline t).diags := by
  rcases runPipeline_cases t with ⟨hok, _⟩ | ⟨herr, _⟩
  · rw [hok] at h
    cases h
  · rw [herr] at h
    cases h
    rfl

/-! ## SourceLoader and Compiler invariants -/

/-- `load` can only fail with `IOError` or `EncodingError`. -/
theorem load_error_spec (fs : FileSystem) (i : String) (e : Error)
    (h : load fs i = .error e) :
    (∃ m, e = .ioError m) ∨ ∃ m, e = .encodingError m := by
  unfold load at h
  cases hl : fs.lookup i <;> rw [hl] at h <;> dsimp only at h
  · cases h
    exact Or.inl ⟨_, rfl⟩
  · rename_i bytes
    cases hd : decodeBytes bytes <;> rw [hd] at h <;> dsimp only at h
    · cases h
      exact Or.inr ⟨_, rfl⟩
    · cases h

/-- A missing input path makes `load` fail with `IOError`. -/
theorem load_none (fs : FileSystem) (i : String) (h : fs.lookup i = none) :
    load fs i = .error (.ioError "input path does not exist") := by
  unfold load
  rw [h]

/-- `prepareOutput` can only fail with `IOError`. -/
theorem prepareOutput_error_spec (fs : FileSystem) (o : String) (e : Error)
    (h : prepareOutput fs o = .error e) : ∃ m, e = .ioError m := by
  unfold prepareOutput at h
  by_cases hp : parentDir o ∈ fs.writableDirs
  · rw [if_pos hp] at h
    cases h
  · rw [if_neg hp] at h
    cases h
    exact ⟨_, rfl⟩

/-- Characterization of `Compiler.new`: the file system is returned
untouched; a failure is an `IOError` or an `EncodingError`; a success holds
the loaded source with an empty diagnostic list and no `contents` — the
compiler is in state `Loaded` and no later pipeline stage has run. -/
theorem new_spec (fs : FileSystem) (i o : String) :
    (Compiler.new fs i o).2 = fs ∧
    (∀ e, (Compiler.new fs i o).1 = .error e →
      (∃ m, e = .ioError m) ∨ ∃ m, e = .encodingError m) ∧
    (∀ c, (Compiler.new fs i o).1 = .ok c →
      c.inputPath = i ∧ c.outputPath = o ∧ load fs i = .ok c.source ∧
        c.diags = [] ∧ c.contents = none) := by
  unfold Compiler.new
  cases hl : load fs i
  case error e' =>
    dsimp only
    refine ⟨rfl, ?_, ?_⟩
    · intro e he
      cases he
      exact load_error_spec fs i _ hl
    · intro c hc
      cases hc
  case ok src =>
    dsimp only
    cases hp : prepareOutput fs o
    case error e' =>
      dsimp only
      refine ⟨rfl, ?_, ?_⟩
      · intro e he
        cases he
        exact Or.inl (prepareOutput_error_spec fs o _ hp)
      · intro c hc
        cases hc
    case ok u =>
      dsimp only
      refine ⟨rfl, ?_, ?_⟩
      · intro e he
        cases he
      · intro c hc
        cases hc
        exact ⟨rfl, rfl, rfl, rfl, rfl⟩

/-- `compile` replaces the diagnostics and `contents` with the pipeline's
output, leaves the paths and the loaded source unchanged, and returns the
pipeline's result. -/
theorem compile_spec (c : Compiler) (fs : FileSystem) :
    (c.compile fs).1.diags = (runPipeline c.source.text).diags ∧
    (c.compile fs).1.contents = (runPipeline c.source.text).contents ∧
    (c.compile fs).2.2 = (runPipeline c.source.text).result ∧
    (c.compile fs).1.source = c.source ∧
    (c.compile fs).1.inputPath = c.inputPath ∧
    (c.compile fs).1.outputPath = c.outputPath := by
  unfold Compiler.compile
  cases hc : (runPipeline c.source.text).contents <;> dsimp only
  · exact ⟨rfl, rfl, rfl, rfl, rfl, rfl⟩
  · exact ⟨rfl, rfl, rfl, rfl, rfl, rfl⟩

/-- The file system after `compile`: untouched unless the pipeline produced
an artifact, in which case exactly the output file is written. -/
theorem compile_fs (c : Compiler) (fs : FileSystem) :
    ((runPipeline c.source.text).contents = none →
      (c.compile fs).2.1 = fs) ∧
    (∀ art, (runPipeline c.source.text).contents = some art →
      (c.compile fs).2.1 = fs.write c.outputPath (encodeString art)) := by
  unfold Compiler.compile
  cases hc : (runPipeline c.source.text).contents <;> dsimp only
  · exact ⟨fun _ => rfl, fun art ha => (by cases ha)⟩
  · refine ⟨fun hn => (by cases hn), fun art ha => ?_⟩
    cases ha
    rfl

/-- The emitted artifact is never the empty string (it begins with the
artifact header). -/
theorem emit_ne_empty (ss : List Stmt) : emit ss ≠ "" := by
  unfold emit
  intro h
  have hd := congrArg String.data h
  rw [String.data_append] at hd
  simp at hd

/-- If every character satisfies the predicate, `splitWhile` consumes the
whole list. -/
theorem splitWhile_all (p : Char → Bool) (l : List Char)
    (h : ∀ c ∈ l, p c = true) : splitWhile p l = (l, []) := by
  induction l with
  | nil => rfl
  | cons c cs ih =>
    rw [splitWhile, if_pos (h c (List.mem_cons_self _ _))]
    rw [ih (fun d hd => h d (List.mem_cons_of_mem _ hd))]

/-- Parsing exactly two chunks that both fail yields exactly their two
diagnostics, in order, and no statements. -/
theorem parseChunks_two (A B : List Token) (dA dB : Diagnostic)
    (hA : parseStmt A = .error dA) (hB : parseStmt B = .error dB) :
    parseChunks [A, B] = ([], [dA, dB]) := by
  rw [parseChunks, hA]
  dsimp only
  rw [parseChunks, hB]
  dsimp only
  rw [parseChunks]

/-! ## Claims -/

/-- **C1**: For every run of the Compiler, the `contents` field is
populated if and only if the run ends in success with zero error-severity
diagnostics; in particular, after a failed `compile()` the `contents` field
holds no artifact. -/
theorem spec_c1_contents_iff_success (c : Compiler) (fs : FileSystem) :
    ((c.compile fs).1.contents.isSome = true ↔
      ((c.compile fs).2.2 = .ok () ∧
        hasError (c.compile fs).1.diags = false)) ∧
    (∀ e, (c.compile fs).2.2 = .error e →
      (c.compile fs).1.contents = none) := by
  obtain ⟨hd, hc, hr, -, -, -⟩ := compile_spec c fs
  rw [hd, hc, hr]
  rcases runPipeline_cases c.source.text with ⟨hok, hne, hsome, -⟩ |
    ⟨herr, he, hnone, -⟩
  · refine ⟨?_, ?_⟩
    · rw [hsome, hok, hne]
      simp
    · intro e hee
      rw [hok] at hee
      cases hee
  · refine ⟨?_, ?_⟩
    · rw [hnone, herr, he]
      simp
    · intro e _
      exact hnone

/-- Witness for C1: a compiler whose source is the single unrecognized
character `@` fails, and its `contents` stays unset. -/
theorem spec_c1_witness :
    ((Compiler.mk "m" "o/a" ⟨"m", ['@']⟩ [] none).compile
      ⟨[], []⟩).1.contents = none :=
  (spec_c1_contents_iff_success _ _).2
    (.compileError
      [{ kind := .lexError, severity := .error,
         message := "unrecognized character", span := ⟨0, 1⟩ }]) rfl

/-- **C2**: `Compiler::new` performs only SourceLoader validation: it fails
with `IOError` or `EncodingError` when that validation fails, and it never
runs any later pipeline stage — on success the compiler holds only the
loaded source, with an empty diagnostic list and no `contents`, and the
file system is untouched. -/
theorem spec_c2_new_only_loader (fs : FileSystem) (i o : String) :
    (∀ e, (Compiler.new fs i o).1 = .error e →
      (∃ m, e = .ioError m) ∨ ∃ m, e = .encodingError m) ∧
    (∀ c, (Compiler.new fs i o).1 = .ok c →
      c.diags = [] ∧ c.contents = none ∧ load fs i = .ok c.source ∧
        c.inputPath = i ∧ c.outputPath = o) ∧
    (Compiler.new fs i o).2 = fs := by
  obtain ⟨h1, h2, h3⟩ := new_spec fs i o
  refine ⟨h2, fun c hc => ?_, h1⟩
  obtain ⟨ha, hb, hc', hd', he'⟩ := h3 c hc
  exact ⟨hd', he', hc', ha, hb⟩

/-- Witness for C2: a missing input path yields an `IOError`, and a
successful `new` yields a compiler with no diagnostics. -/
theorem spec_c2_witness :
    ((∃ m, Error.ioError "input path does not exist" = Error.ioError m) ∨
      ∃ m, Error.ioError "input path does not exist" =
        Error.encodingError m) ∧
    (Compiler.mk "m" "o/a" ⟨"m", ['x', '=', '1', ';']⟩ [] none).diags =
      [] :=
  ⟨(spec_c2_new_only_loader ⟨[], []⟩ "nope" "o/a").1 _ rfl,
   ((spec_c2_new_only_loader ⟨[("m", [120, 61, 49, 59])], ["o"]⟩ "m"
      "o/a").2.1
      (Compiler.mk "m" "o/a" ⟨"m", ['x', '=', '1', ';']⟩ [] none) rfl).1⟩

/-- **C3**: calling `compile()` twice on the same Compiler instance with no
state mutation between the calls yields identical `contents`, an identical
diagnostic list and an identical result both times: the second invocation
re-runs the full pipeline from the `Loaded` state (the unchanged loaded
source) and depends on no mutable state left by the first run. -/
theorem spec_c3_idempotent (c : Compiler) (fs1 fs2 : FileSystem) :
    ((c.compile fs1).1.compile fs2).1.contents =
      (c.compile fs1).1.contents ∧
    ((c.compile fs1).1.compile fs2).1.diags = (c.compile fs1).1.diags ∧
    ((c.compile fs1).1.compile fs2).2.2 = (c.compile fs1).2.2 := by
  obtain ⟨hd1, hc1, hr1, hs1, -, -⟩ := compile_spec c fs1
  obtain ⟨hd2, hc2, hr2, -, -, -⟩ := compile_spec (c.compile fs1).1 fs2
  rw [hd2, hc2, hr2, hs1, hd1, hc1, hr1]
  exact ⟨rfl, rfl, rfl⟩

/-- **C4**: for every valid source input (one whose pipeline run records no
error-severity diagnostic), `compile()` succeeds, `contents` is non-empty,
and two runs on the same input — including runs on two separately
constructed Compiler instances — produce identical `contents`. -/
theorem spec_c4_valid_deterministic (fs : FileSystem) (i o1 o2 : String)
    (c1 c2 : Compiler) (fsa fsb : FileSystem)
    (h1 : (Compiler.new fs i o1).1 = .ok c1)
    (h2 : (Compiler.new fs i o2).1 = .ok c2)
    (hv : hasError (runPipeline c1.source.text).diags = false) :
    (c1.compile fsa).2.2 = .ok () ∧
    ∃ a, (c1.compile fsa).1.contents = some a ∧ a ≠ "" ∧
      (c2.compile fsb).1.contents = some a := by
  have hl1 := ((new_spec fs i o1).2.2 c1 h1).2.2.1
  have hl2 := ((new_spec fs i o2).2.2 c2 h2).2.2.1
  have hsrc : c1.source = c2.source := Except.ok.inj (hl1.symm.trans hl2)
  obtain ⟨hd1, hc1, hr1, -, -, -⟩ := compile_spec c1 fsa
  obtain ⟨hd2, hc2, hr2, -, -, -⟩ := compile_spec c2 fsb
  rcases runPipeline_cases c1.source.text with ⟨hok, hne, hsome, -⟩ |
    ⟨-, he, -, -⟩
  · refine ⟨by rw [hr1, hok], ?_⟩
    refine ⟨emit (parseProgram (scan c1.source.text 0).1).1, ?_, ?_, ?_⟩
    · rw [hc1, hsome]
    · exact emit_ne_empty _
    · rw [hc2, ← hsrc, hsome]
  · rw [he] at hv
    cases hv

/-- Witness for C4: the valid program `x=1;` compiles successfully through
a freshly constructed Compiler. -/
theorem spec_c4_witness :
    ((Compiler.mk "m" "o/a" ⟨"m", ['x', '=', '1', ';']⟩ [] none).compile
      ⟨[], []⟩).2.2 = .ok () :=
  (spec_c4_valid_deterministic ⟨[("m", [120, 61, 49, 59])], ["o"]⟩ "m"
    "o/a" "o/b"
    (Compiler.mk "m" "o/a" ⟨"m", ['x', '=', '1', ';']⟩ [] none)
    (Compiler.mk "m" "o/b" ⟨"m", ['x', '=', '1', ';']⟩ [] none)
    ⟨[], []⟩ ⟨[], []⟩ rfl rfl rfl).1

/-- **C5**: whenever `compile()` fails, the returned error carries the full
accumulated diagnostic list — never only the first problem — and the
diagnostics in that list are ordered (hence never reordered) by source
position. -/
theorem spec_c5_full_diags (c : Compiler) (fs : FileSystem) (e : Error)
    (h : (c.compile fs).2.2 = .error e) :
    e = .compileError ((c.compile fs).1.diags) ∧
    ((c.compile fs).1.diags).Pairwise diagLe := by
  obtain ⟨hd, -, hr, -, -, -⟩ := compile_spec c fs
  rw [hd]
  rw [hr] at h
  exact ⟨runPipeline_fail_diags _ _ h, runPipeline_diags_sorted _⟩

/-- Witness for C5: the source `1;2;` has two independent syntax errors;
the failed run's diagnostic list (both of them) is ordered by position. -/
theorem spec_c5_witness :
    (((Compiler.mk "m" "o/a" ⟨"m", ['1', ';', '2', ';']⟩ [] none).compile
      ⟨[], []⟩).1.diags).Pairwise diagLe :=
  (spec_c5_full_diags
    (Compiler.mk "m" "o/a" ⟨"m", ['1', ';', '2', ';']⟩ [] none) ⟨[], []⟩
    (.compileError
      [{ kind := .syntaxError, severity := .error,
         message := "expected identifier at start of statement",
         span := ⟨0, 1⟩ },
       { kind := .syntaxError, severity := .error,
         message := "expected identifier at start of statement",
         span := ⟨2, 3⟩ }]) rfl).2

/-- **C6**: if any error-severity diagnostic has been recorded by the end
of semantic analysis then the Emitter is never invoked — no emission, no
output-file write — while warning-severity diagnostics alone never prevent
`compile()` from succeeding. -/
theorem spec_c6_errors_block_emit (c : Compiler) (fs : FileSystem) :
    (hasError (runPipeline c.source.text).diags = true →
      Stage.emit ∉ (runPipeline c.source.text).stagesRun ∧
      (c.compile fs).1.contents = none ∧ (c.compile fs).2.1 = fs) ∧
    (hasError (runPipeline c.source.text).diags = false →
      (c.compile fs).2.2 = .ok ()) := by
  obtain ⟨-, hc, hr, -, -, -⟩ := compile_spec c fs
  obtain ⟨hfs_none, -⟩ := compile_fs c fs
  rcases runPipeline_cases c.source.text with ⟨hok, hne, -, -⟩ |
    ⟨-, he, hnone, hnotin⟩
  · refine ⟨fun hErr => ?_, fun _ => by rw [hr, hok]⟩
    rw [hne] at hErr
    cases hErr
  · refine ⟨fun _ => ⟨hnotin, ?_, hfs_none hnone⟩, fun hf => ?_⟩
    · rw [hc, hnone]
    · rw [he] at hf
      cases hf

/-- Witness for C6: on the erroneous source `@` the emit stage never runs,
while the warning-only source `x=1;x=2;` (a redefinition) still compiles
successfully. -/
theorem spec_c6_witness :
    Stage.emit ∉ (runPipeline (Compiler.mk "m" "o/a" ⟨"m", ['@']⟩ []
      none).source.text).stagesRun ∧
    ((Compiler.mk "m" "o/a"
      ⟨"m", ['x', '=', '1', ';', 'x', '=', '2', ';']⟩ [] none).compile
        ⟨[], []⟩).2.2 = .ok () :=
  ⟨((spec_c6_errors_block_emit (Compiler.mk "m" "o/a" ⟨"m", ['@']⟩ []
      none) ⟨[], []⟩).1 rfl).1,
   (spec_c6_errors_block_emit (Compiler.mk "m" "o/a"
      ⟨"m", ['x', '=', '1', ';', 'x', '=', '2', ';']⟩ [] none)
        ⟨[], []⟩).2 rfl⟩

/-- **C9**: for a nonexistent input path, `Compiler::new` fails with
`IOError` while leaving the file system unchanged: no output file is
created (output-path validation performs no write). -/
theorem spec_c9_missing_input (fs : FileSystem) (i o : String)
    (h : fs.lookup i = none) :
    (Compiler.new fs i o).1 =
      .error (.ioError "input path does not exist") ∧
    (Compiler.new fs i o).2 = fs ∧
    (Compiler.new fs i o).2.lookup o = fs.lookup o := by
  have hload := load_none fs i h
  refine ⟨?_, (new_spec fs i o).1, by rw [(new_spec fs i o).1]⟩
  unfold Compiler.new
  rw [hload]

/-- Witness for C9: constructing a Compiler on the missing path `nope`
fails with `IOError` and creates no output file. -/
theorem spec_c9_witness :
    (Compiler.new ⟨[], ["o"]⟩ "nope" "o/a").1 =
      .error (.ioError "input path does not exist") ∧
    (Compiler.new ⟨[], ["o"]⟩ "nope" "o/a").2 = (⟨[], ["o"]⟩ :
      FileSystem) :=
  ⟨(spec_c9_missing_input ⟨[], ["o"]⟩ "nope" "o/a" rfl).1,
   (spec_c9_missing_input ⟨[], ["o"]⟩ "nope" "o/a" rfl).2.1⟩

/-- **C7**: for an input whose scan yields exactly one `LexError`
diagnostic, `compile()` fails and the diagnostic list contains exactly that
one `LexError`; the span of an unterminated string literal's diagnostic
covers the malformed literal (from its opening quote to end of input); the
lexer recovers from an unrecognized character by skipping one code point
and continuing, and scanning always reaches the end-of-input terminal, so
a single bad character never aborts scanning of the rest of the file. -/
theorem spec_c7_lex_error_recovery :
    (∀ (c : Compiler) (fs : FileSystem) (d : Diagnostic),
      (scan c.source.text 0).2 = [d] → d.kind = .lexError →
      (c.compile fs).2.2 = .error (.compileError [d]) ∧
      (c.compile fs).1.diags = [d]) ∧
    (∀ (pos : Nat) (content : List Char),
      (∀ ch ∈ content, notQuote ch = true) →
      (scan ('"' :: content) pos).2 =
        [{ kind := .lexError, severity := .error,
           message := "unterminated string literal",
           span := ⟨pos, pos + 1 + content.length⟩ }]) ∧
    (∀ (ch : Char) (rest : List Char) (pos : Nat),
      isSpaceChar ch = false → isIdentChar ch = false →
      isDigitChar ch = false → ch ≠ '"' → ch ≠ '=' → ch ≠ ';' → ch ≠ '+' →
      scan (ch :: rest) pos =
        ((scan rest (pos + 1)).1,
         { kind := .lexError, severity := .error,
           message := "unrecognized character",
           span := ⟨pos, pos + 1⟩ } :: (scan rest (pos + 1)).2)) ∧
    (∀ (l : List Char) (pos : Nat),
      (scan l pos).1.getLast? = some (eofToken (pos + l.length))) := by
  refine ⟨?_, ?_, ?_, scan_getLast⟩
  · intro c fs d hscan hkind
    have hsev : d.severity = .error :=
      (scan_diags_all_error c.source.text 0 d
        (by rw [hscan]; exact List.mem_cons_self _ _)).1
    have hlex : hasError (scan c.source.text 0).2 = true := by
      rw [hscan, hasError]
      simp [hsev]
    have hrp : runPipeline c.source.text =
        { diags := (scan c.source.text 0).2, contents := none,
          stagesRun := [.lex],
          result := .error (.compileError (scan c.source.text 0).2) } := by
      rw [runPipeline, if_pos hlex]
    obtain ⟨hd, -, hr, -, -, -⟩ := compile_spec c fs
    refine ⟨?_, ?_⟩
    · rw [hr, hrp, hscan]
    · rw [hd, hrp]
      exact hscan
  · intro pos content h
    have hsplit : splitWhile notQuote content = (content, []) :=
      splitWhile_all _ _ h
    show (scanF ('"' :: content).length ('"' :: content) pos).2 = _
    rw [List.length_cons, scanF]
    rw [if_neg (by decide), if_neg (by decide), if_neg (by decide),
      if_pos rfl, if_pos (by rw [hsplit])]
    rw [hsplit]
  · intro ch rest pos h1 h2 h3 h4 h5 h6 h7
    show scanF (ch :: rest).length (ch :: rest) pos = _
    rw [List.length_cons, scanF]
    rw [if_neg (by simp [h1]), if_neg (by simp [h2]), if_neg (by simp [h3]),
      if_neg h4, if_neg h5, if_neg h6, if_neg h7]
    rfl

/-- Witness for C7: the single-quote source fails with exactly its one
`LexError`; an unterminated literal at offset 5 is flagged to end of
input; the character `@` is skipped and scanning continues. -/
theorem spec_c7_witness :
    (((Compiler.mk "m" "o/a" ⟨"m", ['"']⟩ [] none).compile ⟨[], []⟩).2.2 =
      .error (.compileError
        [{ kind := .lexError, severity := .error,
           message := "unterminated string literal",
           span := ⟨0, 1⟩ }]) ∧
     ((Compiler.mk "m" "o/a" ⟨"m", ['"']⟩ [] none).compile
       ⟨[], []⟩).1.diags =
       [{ kind := .lexError, severity := .error,
          message := "unterminated string literal", span := ⟨0, 1⟩ }]) ∧
    (scan ['"', 'a', 'b'] 5).2 =
      [{ kind := .lexError, severity := .error,
         message := "unterminated string literal", span := ⟨5, 8⟩ }] ∧
    scan ['@', 'x'] 0 =
      ((scan ['x'] 1).1,
       { kind := .lexError, severity := .error,
         message := "unrecognized character",
         span := ⟨0, 1⟩ } :: (scan ['x'] 1).2) :=
  ⟨spec_c7_lex_error_recovery.1 (Compiler.mk "m" "o/a" ⟨"m", ['"']⟩ []
      none) ⟨[], []⟩
      { kind := .lexError, severity := .error,
        message := "unterminated string literal", span := ⟨0, 1⟩ }
      rfl rfl,
   spec_c7_lex_error_recovery.2.1 5 ['a', 'b'] (by decide),
   spec_c7_lex_error_recovery.2.2.1 '@' ['x'] 0 rfl rfl rfl (by decide)
     (by decide) (by decide) (by decide)⟩

/-- **C8**: for an input made of two statements, each of which fails to
parse, separated by the synchronization token `;`, the parser's diagnostic
list contains exactly two `SyntaxError` entries, in order, each anchored at
the span of a token of its own statement: panic-mode recovery at the
statement boundary prevents the first error from swallowing the second. -/
theorem spec_c8_two_syntax_errors (A B : List Token) (sp : Span) (n : Nat)
    (dA dB : Diagnostic)
    (hA : ∀ t ∈ A, t.kind ≠ .semi ∧ t.kind ≠ .eof)
    (hB : ∀ t ∈ B, t.kind ≠ .semi ∧ t.kind ≠ .eof)
    (heA : parseStmt A = .error dA) (heB : parseStmt B = .error dB) :
    parseProgram (A ++ { kind := .semi, text := ";", span := sp } ::
      (B ++ [eofToken n])) = ([], [dA, dB]) ∧
    dA.kind = .syntaxError ∧ dB.kind = .syntaxError ∧
    (∃ t ∈ A, dA.span = t.span) ∧ (∃ t ∈ B, dB.span = t.span) := by
  have hfA : A.filter (fun t => t.kind ≠ .eof) = A :=
    List.filter_eq_self.mpr (fun t ht => by simpa using (hA t ht).2)
  have hfB : B.filter (fun t => t.kind ≠ .eof) = B :=
    List.filter_eq_self.mpr (fun t ht => by simpa using (hB t ht).2)
  have hfilter : (A ++ { kind := .semi, text := ";", span := sp } ::
      (B ++ [eofToken n])).filter (fun t => t.kind ≠ .eof) =
      A ++ { kind := .semi, text := ";", span := sp } :: B := by
    rw [List.filter_append, hfA, List.filter_cons, List.filter_append, hfB]
    simp [eofToken]
  rw [parseProgram, hfilter,
    splitStmts_append A B _ rfl (fun t ht => (hA t ht).1),
    splitStmts_no_semi B (fun t ht => (hB t ht).1),
    parseChunks_two A B dA dB heA heB]
  obtain ⟨hkA, -, tA, htA, hspA⟩ := parseStmt_error_spec A dA heA
  obtain ⟨hkB, -, tB, htB, hspB⟩ := parseStmt_error_spec B dB heB
  exact ⟨rfl, hkA, hkB, ⟨tA, htA, hspA⟩, ⟨tB, htB, hspB⟩⟩

/-- Witness for C8: the two malformed one-token statements `1` and `2`
yield exactly two `SyntaxError` diagnostics, each at its own span. -/
theorem spec_c8_witness :
    parseProgram
      ([{ kind := .number, text := "1", span := ⟨0, 1⟩ }] ++
        { kind := TokenKind.semi, text := ";", span := ⟨1, 2⟩ } ::
        ([{ kind := .number, text := "2", span := ⟨2, 3⟩ }] ++
          [eofToken 4])) =
      ([], [{ kind := .syntaxError, severity := .error,
              message := "expected identifier at start of statement",
              span := ⟨0, 1⟩ },
            { kind := .syntaxError, severity := .error,
              message := "expected identifier at start of statement",
              span := ⟨2, 3⟩ }]) :=
  (spec_c8_two_syntax_errors
    [{ kind := .number, text := "1", span := ⟨0, 1⟩ }]
    [{ kind := .number, text := "2", span := ⟨2, 3⟩ }]
    ⟨1, 2⟩ 4
    { kind := .syntaxError, severity := .error,
      message := "expected identifier at start of statement",
      span := ⟨0, 1⟩ }
    { kind := .syntaxError, severity := .error,
      message := "expected identifier at start of statement",
      span := ⟨2, 3⟩ }
    (by decide) (by decide) rfl rfl).1

/-- **C10**: in the driver embedded from `src/main.rs`, `contents` is
printed to standard output exactly when both `Compiler::new` and
`compile()` return Ok on a `compile` subcommand; if either call returns an
error, `main` propagates that error as its own result and prints nothing;
for a missing or any other subcommand, `main` builds no Compiler, touches
nothing and returns Ok. -/
theorem spec_c10_driver (cli : Cli) (fs : FileSystem) :
    (∀ i o, cli.command = some (.compileCmd i o) →
      (∀ e, (Compiler.new fs i o).1 = .error e →
        mainRun cli fs = (.error e, [], fs)) ∧
      (∀ c, (Compiler.new fs i o).1 = .ok c →
        (∀ e, (c.compile fs).2.2 = .error e →
          mainRun cli fs = (.error e, [], (c.compile fs).2.1)) ∧
        ((c.compile fs).2.2 = .ok () →
          mainRun cli fs =
            (.ok (), [(c.compile fs).1.contents.getD ""],
              (c.compile fs).2.1) ∧
          ∃ a, (c.compile fs).1.contents = some a))) ∧
    (cli.command = none → mainRun cli fs = (.ok (), [], fs)) ∧
    (cli.command = some .other → mainRun cli fs = (.ok (), [], fs)) := by
  have hfs2 : ∀ i o, (Compiler.new fs i o).2 = fs :=
    fun i o => (new_spec fs i o).1
  refine ⟨?_, ?_, ?_⟩
  · intro i o hcmd
    constructor
    · intro e he
      unfold mainRun
      rw [hcmd]
      dsimp only
      rw [he]
      dsimp only
      rw [hfs2]
    · intro c hc
      constructor
      · intro e he2
        unfold mainRun
        rw [hcmd]
        dsimp only
        rw [hc]
        dsimp only
        rw [hfs2]
        rw [he2]
      · intro hok
        refine ⟨?_, ?_⟩
        · unfold mainRun
          rw [hcmd]
          dsimp only
          rw [hc]
          dsimp only
          rw [hfs2]
          rw [hok]
        · obtain ⟨-, hcc, hr, -, -, -⟩ := compile_spec c fs
          rcases runPipeline_cases c.source.text with ⟨-, -, hsome, -⟩ |
            ⟨herr, -, -, -⟩
          · exact ⟨_, by rw [hcc, hsome]⟩
          · rw [hr, herr] at hok
            cases hok
  · intro hnone
    unfold mainRun
    rw [hnone]
  · intro hother
    unfold mainRun
    rw [hother]

/-- Witness for C10: the driver propagates the `IOError` of a missing
input, propagates a failed compilation, prints `contents` exactly on
success, and is a no-op for a missing subcommand. -/
theorem spec_c10_witness :
    mainRun ⟨some (.compileCmd "m" "o/a")⟩ ⟨[], ["o"]⟩ =
      (.error (.ioError "input path does not exist"), [],
        (⟨[], ["o"]⟩ : FileSystem)) ∧
    mainRun ⟨some (.compileCmd "m" "o/a")⟩ ⟨[("m", [64])], ["o"]⟩ =
      (.error (.compileError
        [{ kind := .lexError, severity := .error,
           message := "unrecognized character", span := ⟨0, 1⟩ }]), [],
        ((Compiler.mk "m" "o/a" ⟨"m", ['@']⟩ [] none).compile
          ⟨[("m", [64])], ["o"]⟩).2.1) ∧
    mainRun ⟨some (.compileCmd "m" "o/a")⟩ ⟨[("m", [120, 61, 49, 59])],
      ["o"]⟩ =
      (.ok (),
       [((Compiler.mk "m" "o/a" ⟨"m", ['x', '=', '1', ';']⟩ []
           none).compile ⟨[("m", [120, 61, 49, 59])], ["o"]⟩).1.contents.getD
         ""],
       ((Compiler.mk "m" "o/a" ⟨"m", ['x', '=', '1', ';']⟩ []
         none).compile ⟨[("m", [120, 61, 49, 59])], ["o"]⟩).2.1) ∧
    mainRun ⟨none⟩ ⟨[], []⟩ = (.ok (), [], (⟨[], []⟩ : FileSystem)) :=
  ⟨((spec_c10_driver ⟨some (.compileCmd "m" "o/a")⟩ ⟨[], ["o"]⟩).1 "m"
      "o/a" rfl).1 _ rfl,
   (((spec_c10_driver ⟨some (.compileCmd "m" "o/a")⟩ ⟨[("m", [64])],
      ["o"]⟩).1 "m" "o/a" rfl).2
      (Compiler.mk "m" "o/a" ⟨"m", ['@']⟩ [] none) rfl).1 _ rfl,
   ((((spec_c10_driver ⟨some (.compileCmd "m" "o/a")⟩
      ⟨[("m", [120, 61, 49, 59])], ["o"]⟩).1 "m" "o/a" rfl).2
      (Compiler.mk "m" "o/a" ⟨"m", ['x', '=', '1', ';']⟩ [] none)
      rfl).2 rfl).1,
   (spec_c10_driver ⟨none⟩ ⟨[], []⟩).2.1 rfl⟩

end Amuletc
